import Mathlib

/-!
Shallow embedding of the measurement-extraction pipeline of
`src/services/WikipediaInspector.ts` (class `WikipediaInspector`).

A table cell is modelled by its trimmed-to-be text content (`List Char`),
a row by the list of its `td` cells' texts, and a table by the list of its
`tr` rows.  Numbers are modelled exactly over `ℚ`: the digit strings the
two regexes capture denote exact decimal values, so JS `parseFloat` on
them is exact decimal conversion, and JS `NaN` is `Option.none`.

The two regexes of the source,

  METRES_REGEX = /(\d+[.,]?\d*)\s*m/
  FEET_REGEX   = /(\d+)\s*ft\s*(\d+)?\s*in/

are embedded as executable leftmost-match searchers (`matchMetres`,
`matchFeet`) over `List Char`; `String.prototype.match` with a flagless
regex returns the leftmost match, which the searchers reproduce by trying
`matchMetresAt` / `matchFeetAt` at every start position from the left.
At a fixed start position the JS backtracking engine is deterministic for
these two patterns (comments at the per-position matchers justify each
pruned alternative), so the per-position matchers are written greedily.
-/

namespace DetectorInspector

/-- JS `\s` on the characters relevant here: the space and ASCII control
whitespace characters.  (JS `\s` also accepts some unicode space
characters; none occurs in the strings any claim is about.) -/
def isSpace (c : Char) : Bool :=
  c == ' ' || c == '\t' || c == '\n' || c == '\r' || c == '\x0b' || c == '\x0c'

/-- Numeric value of a base-10 digit string, most significant digit first. -/
def natOfDigits (l : List Char) : ℕ :=
  l.foldl (fun n c => 10 * n + (c.toNat - 48)) 0

/-- The syntactic layer of JS `parseFloat`, restricted to the fragment of
its grammar the regex captures can produce (`\d+`, `\d+.\d*`, and those
with leading whitespace): skip leading whitespace, read the integer digit
run and, after a `.`, the fraction digit run; `none` when there is no
leading digit (JS `NaN`).  Every string the pipeline feeds to
`parseFloat` matches `^\d+\.?\d*$`, for which this is exactly JS
behaviour. -/
def parseFloatParts (s : List Char) : Option (List Char × List Char) :=
  if ((s.dropWhile isSpace).takeWhile Char.isDigit).isEmpty then none
  else
    match (s.dropWhile isSpace).dropWhile Char.isDigit with
    | '.' :: r2 =>
        some ((s.dropWhile isSpace).takeWhile Char.isDigit, r2.takeWhile Char.isDigit)
    | _ => some ((s.dropWhile isSpace).takeWhile Char.isDigit, [])

/-- JS `parseFloat` on the same fragment: the exact decimal value of the
integer and fraction digit runs.  The real `parseFloat` returns binary64
doubles, not exact rationals: it renders every value at or above
`DOUBLE_OVERFLOW_THRESHOLD` (defined below) as `Infinity`, which
`isNaN` does NOT filter — that boundary, invisible to the exact value
returned here, is treated explicitly where a claim depends on it. -/
def parseFloat (s : List Char) : Option ℚ :=
  match parseFloatParts s with
  | some (ds, []) => some ((natOfDigits ds : ℚ))
  | some (ds, fs) => some ((natOfDigits ds : ℚ) + (natOfDigits fs : ℚ) / 10 ^ fs.length)
  | none => none

/-- Boundary of the JS number domain: IEEE-754 binary64
round-to-nearest-even sends every real at or above 2^1024 - 2^970 to
Infinity (the largest finite double is 2^1024 - 2^971, and the midpoint
2^1024 - 2^970 rounds to the even 2^1024, i.e. overflows), so JS
`parseFloat` yields `Infinity` exactly when the exact decimal value of
its argument reaches this threshold.  A pipeline value at or above this
threshold is therefore rendered `Infinity` by the real program. -/
def DOUBLE_OVERFLOW_THRESHOLD : ℚ := 2 ^ 1024 - 2 ^ 970

/-- JS `String.prototype.replace` with a plain one-character pattern:
replaces the FIRST occurrence of `a` by `b` (the source calls
`.replace(",", ".")`, flagless, hence first occurrence only). -/
def replaceFirst (a b : Char) : List Char → List Char
  | [] => []
  | c :: r => if c = a then b :: r else c :: replaceFirst a b r

/-- The tail `\s*m` of METRES_REGEX at a fixed position: maximal
whitespace, then the literal `m`.  (`\s*` giving back characters cannot
help: the returned character would then have to match the literal `m`,
and no whitespace character is `m`.) -/
def matchSpacesThenM : List Char → Bool
  | [] => false
  | c :: r => if c = 'm' then true else if isSpace c then matchSpacesThenM r else false

/-- METRES_REGEX `/(\d+[.,]?\d*)\s*m/` at one start position; returns the
group-1 capture on success.  `\d+` is taken maximally: any digits it gave
back would have to be matched by `[.,]?` (never a digit), `\d*` (same
total consumption), `\s*` or the literal `m` (never digits), so maximal
is exact.  After a separator, `\d*` is also maximal: a digit it gave back
would have to match `\s*` or `m`.  When the separator branch's tail
fails, the `[.,]?` = empty alternative also fails, since the separator
character itself is neither a digit, whitespace, nor `m`. -/
def matchMetresAt (s : List Char) : Option (List Char) :=
  if (s.takeWhile Char.isDigit).isEmpty then none
  else
    match s.dropWhile Char.isDigit with
    | c :: r2 =>
        if c = '.' || c = ',' then
          if matchSpacesThenM (r2.dropWhile Char.isDigit) then
            some (s.takeWhile Char.isDigit ++ c :: r2.takeWhile Char.isDigit)
          else none
        else if matchSpacesThenM (c :: r2) then some (s.takeWhile Char.isDigit)
        else none
    | [] => none

/-- JS `value.match(METRES_REGEX)`: leftmost match, group-1 capture. -/
def matchMetres : List Char → Option (List Char)
  | [] => none
  | c :: t =>
      match matchMetresAt (c :: t) with
      | some g => some g
      | none => matchMetres t

/-- FEET_REGEX `/(\d+)\s*ft\s*(\d+)?\s*in/` at one start position;
returns the group-1 capture and the optional group-2 capture.  `\d+` and
each `\s*` are maximal for the same giving-back argument as in
`matchMetresAt`; `(\d+)?` is maximal since a digit it gave back would
have to match `\s*` or the literal `in`, and taking it as empty while
digits are present fails the same way.  When group 2 is absent the source
reads `feetValue[2]` as `undefined`, modelled as `none`. -/
def matchFeetAt (s : List Char) : Option (List Char × Option (List Char)) :=
  if (s.takeWhile Char.isDigit).isEmpty then none
  else
    match (s.dropWhile Char.isDigit).dropWhile isSpace with
    | 'f' :: 't' :: r3 =>
        match ((r3.dropWhile isSpace).dropWhile Char.isDigit).dropWhile isSpace with
        | 'i' :: 'n' :: _ =>
            some (s.takeWhile Char.isDigit,
              if ((r3.dropWhile isSpace).takeWhile Char.isDigit).isEmpty then none
              else some ((r3.dropWhile isSpace).takeWhile Char.isDigit))
        | _ => none
    | _ => none

/-- JS `value.match(FEET_REGEX)`: leftmost match, groups 1 and 2. -/
def matchFeet : List Char → Option (List Char × Option (List Char))
  | [] => none
  | c :: t =>
      match matchFeetAt (c :: t) with
      | some fv => some fv
      | none => matchFeet t

/-- JS `String.prototype.trim`: strip whitespace from both ends. -/
def trim (s : List Char) : List Char :=
  ((s.dropWhile isSpace).reverse.dropWhile isSpace).reverse

/-- The per-cell unit parse, lines 95-110 of the source: try
METRES_REGEX; on a match, convert the capture with `,` normalized to `.`
and keep the value unless `isNaN` (the metric branch never consults
FEET_REGEX, matched or not); otherwise try FEET_REGEX and convert
`feet * 0.3048 + inches * 0.0254`, inches defaulting to 0 when group 2 is
absent.  The feet branch's captures match `\d+`, so their `parseFloat`
never yields `NaN`; the `getD 0` below is therefore never taken (lemma
`parseFloat_digits`). -/
def parseCell (value : List Char) : Option ℚ :=
  match matchMetres value with
  | some g =>
      match parseFloat (replaceFirst ',' '.' g) with
      | some numValue => some numValue
      | none => none
  | none =>
      match matchFeet value with
      | some fv =>
          some ((parseFloat fv.1).getD 0 * (3048 / 10000 : ℚ) +
            (match fv.2 with
             | some d => (parseFloat d).getD 0
             | none => 0) * (254 / 10000 : ℚ))
      | none => none

/-- The `ColumnData` interface of the source. -/
structure ColumnData where
  header : String
  values : List ℚ
deriving DecidableEq

/-- Text content of one table cell. -/
abbrev CellText := List Char

/-- One `tr` row: the texts of its `td` cells, in order. -/
abbrev Row := List CellText

/-- One `table.wikitable`: its `tr` rows in order. -/
abbrev Table := List Row

/-- One iteration of the row loop (lines 88-112): a row contributes the
parse of its first cell's trimmed text, and nothing when it has no
cells. -/
def rowValue (cells : Row) : Option ℚ :=
  match cells with
  | [] => none
  | c :: _ => parseCell (trim c)

/-- The row loop of `extractColumnData`: rows from index 1 on, in order,
keeping the successful first-cell parses. -/
def scanValues (rows : List Row) : List ℚ :=
  (rows.drop 1).filterMap rowValue

/-- Source `extractColumnData` (lines 77-115): the "Height" column of the
scanned values, returned only when non-empty. -/
def extractColumnData (table : Table) : List ColumnData :=
  if (scanValues table).length > 0 then
    [{ header := "Height", values := scanValues table }]
  else []

/-- Source `getColumns` (lines 123-136) after the fetch: concatenate the
per-table extractions in table order.  (`getTables`, the network/DOM
collaborator, has already produced `tables`.) -/
def getColumns (tables : List Table) : List ColumnData :=
  (tables.map extractColumnData).flatten

/-- The message of the error thrown at line 151. -/
def NO_COLUMNS_MSG : String := "No numeric columns found in the tables"

/-- Source `generateChart` (lines 145-159) on already-fetched tables: throw when
no columns were extracted, with the catch block prefixing
"Failed to generate chart: "; chart rendering (the TODO / `saveChart`
collaborator) is outside the extraction engine and modelled as success. -/
def generateChart (tables : List Table) : Except String Unit :=
  match (if (getColumns tables).length = 0 then
          Except.error NO_COLUMNS_MSG else Except.ok ()) with
  | Except.error e => Except.error ("Failed to generate chart: " ++ e)
  | Except.ok _ => Except.ok ()

/-! Evaluation lemmas: route one `parseCell` computation through the
discrete layers (decidable, list-valued) so that the remaining goal is
plain rational arithmetic. -/

/-- The metric branch of `parseCell`: whatever METRES_REGEX matched, the
cell's value is the converted capture (never the imperial branch). -/
theorem parseCell_metres (s g : List Char) (h : matchMetres s = some g) :
    parseCell s = parseFloat (replaceFirst ',' '.' g) := by
  cases hp : parseFloat (replaceFirst ',' '.' g) <;> simp [parseCell, h, hp]

/-- The imperial branch of `parseCell` with an inches capture, entered
only when METRES_REGEX did not match. -/
theorem parseCell_feet_some (s g1 d : List Char)
    (hm : matchMetres s = none) (hf : matchFeet s = some (g1, some d)) :
    parseCell s = some ((parseFloat g1).getD 0 * (3048 / 10000 : ℚ) +
      (parseFloat d).getD 0 * (254 / 10000 : ℚ)) := by
  simp [parseCell, hm, hf]

/-- The imperial branch of `parseCell` with the inches capture absent:
inches default to 0. -/
theorem parseCell_feet_none (s g1 : List Char)
    (hm : matchMetres s = none) (hf : matchFeet s = some (g1, none)) :
    parseCell s = some ((parseFloat g1).getD 0 * (3048 / 10000 : ℚ) +
      0 * (254 / 10000 : ℚ)) := by
  simp [parseCell, hm, hf]

/-- When neither regex matches, the cell contributes nothing. -/
theorem parseCell_noMatch (s : List Char) (hm : matchMetres s = none)
    (hf : matchFeet s = none) : parseCell s = none := by
  simp [parseCell, hm, hf]

/-- Value of a successful `parseFloat` with a non-empty fraction part. -/
theorem parseFloat_frac (s ds f : List Char) (c : Char)
    (h : parseFloatParts s = some (ds, c :: f)) :
    parseFloat s = some ((natOfDigits ds : ℚ) +
      (natOfDigits (c :: f) : ℚ) / 10 ^ (c :: f).length) := by
  simp [parseFloat, h]

/-- Value of a successful `parseFloat` with no fraction part. -/
theorem parseFloat_int (s ds : List Char) (h : parseFloatParts s = some (ds, [])) :
    parseFloat s = some ((natOfDigits ds : ℚ)) := by
  simp [parseFloat, h]

/-! Character-class facts and list scanning lemmas used by the
regex-model proofs. -/

theorem not_digit_of_isSpace (c : Char) (h : isSpace c = true) : c.isDigit = false := by
  simp only [isSpace, Bool.or_eq_true, beq_iff_eq] at h
  rcases h with ((((h | h) | h) | h) | h) | h <;> subst h <;> decide

theorem ne_of_isDigit (c a : Char) (h : c.isDigit = true) (ha : a.isDigit = false) :
    c ≠ a := by
  intro e; subst e; rw [h] at ha; cases ha

theorem ne_of_isSpace (c a : Char) (h : isSpace c = true) (ha : isSpace a = false) :
    c ≠ a := by
  intro e; subst e; rw [h] at ha; cases ha

theorem takeWhile_append_eq (p : Char → Bool) (l₁ l₂ : List Char)
    (h₁ : ∀ c ∈ l₁, p c = true) (h₂ : ∀ c, l₂.head? = some c → p c = false) :
    (l₁ ++ l₂).takeWhile p = l₁ ∧ (l₁ ++ l₂).dropWhile p = l₂ := by
  induction l₁ with
  | nil =>
    simp only [List.nil_append]
    cases l₂ with
    | nil => exact ⟨rfl, rfl⟩
    | cons c t =>
      have hc := h₂ c rfl
      exact ⟨by simp [List.takeWhile_cons, hc], by simp [List.dropWhile_cons, hc]⟩
  | cons c t ih =>
    have hc := h₁ c (List.mem_cons_self c t)
    obtain ⟨ht, hd⟩ := ih fun x hx => h₁ x (List.mem_cons_of_mem _ hx)
    exact ⟨by simp [List.takeWhile_cons, hc, ht], by simp [List.dropWhile_cons, hc, hd]⟩

theorem takeWhile_all (p : Char → Bool) (l : List Char) (h : ∀ c ∈ l, p c = true) :
    l.takeWhile p = l ∧ l.dropWhile p = [] := by
  have := takeWhile_append_eq p l [] h (fun c hc => by cases hc)
  simpa using this

theorem dropWhile_eq_self_of_head (p : Char → Bool) (l : List Char)
    (h : ∀ c, l.head? = some c → p c = false) : l.dropWhile p = l := by
  cases l with
  | nil => rfl
  | cons c t => simp [List.dropWhile_cons, h c rfl]

theorem matchSpacesThenM_spaces (w b : List Char) (hw : ∀ c ∈ w, isSpace c = true) :
    matchSpacesThenM (w ++ 'm' :: b) = true := by
  induction w with
  | nil => simp [matchSpacesThenM]
  | cons c t ih =>
    have hc := hw c (List.mem_cons_self c t)
    have hm : c ≠ 'm' := ne_of_isSpace c 'm' hc (by decide)
    simp only [List.cons_append, matchSpacesThenM, if_neg hm, if_pos hc]
    exact ih fun x hx => hw x (List.mem_cons_of_mem _ hx)

theorem mem_m_of_matchSpacesThenM (l : List Char) (h : matchSpacesThenM l = true) :
    'm' ∈ l := by
  induction l with
  | nil => cases h
  | cons c t ih =>
    by_cases hc : c = 'm'
    · subst hc; exact List.mem_cons_self _ _
    · simp only [matchSpacesThenM, if_neg hc] at h
      by_cases hs : isSpace c = true
      · rw [if_pos hs] at h
        exact List.mem_cons_of_mem _ (ih h)
      · rw [if_neg hs] at h; cases h

/-! Necessary conditions for the two regexes to match: a METRES_REGEX
match consumes a literal `m`, a FEET_REGEX match a literal `in`.  Their
contrapositives settle cells that contain no such marker. -/

theorem mem_m_of_matchMetresAt (s g : List Char) (h : matchMetresAt s = some g) :
    'm' ∈ s := by
  unfold matchMetresAt at h
  split at h
  · cases h
  · split at h
    case _ c r2 heq =>
      have hsub : List.Sublist (c :: r2) s := heq ▸ (s.dropWhile_sublist Char.isDigit)
      split at h
      · split at h
        case _ hsp =>
          have : 'm' ∈ r2.dropWhile Char.isDigit :=
            mem_m_of_matchSpacesThenM _ hsp
          have : 'm' ∈ c :: r2 :=
            List.mem_cons_of_mem _ ((r2.dropWhile_sublist Char.isDigit).mem this)
          exact hsub.mem this
        · cases h
      · split at h
        case _ hsp =>
          exact hsub.mem (mem_m_of_matchSpacesThenM _ hsp)
        · cases h
    · cases h

theorem mem_m_of_matchMetres (s g : List Char) (h : matchMetres s = some g) :
    'm' ∈ s := by
  induction s with
  | nil => cases h
  | cons c t ih =>
    unfold matchMetres at h
    split at h
    case _ g' heq => exact mem_m_of_matchMetresAt _ _ heq
    case _ heq => exact List.mem_cons_of_mem _ (ih h)

theorem matchMetres_eq_none (s : List Char) (h : 'm' ∉ s) : matchMetres s = none := by
  cases hm : matchMetres s with
  | none => rfl
  | some g => exact absurd (mem_m_of_matchMetres s g hm) h

theorem mem_i_of_matchFeetAt (s : List Char) (fv : List Char × Option (List Char))
    (h : matchFeetAt s = some fv) : 'i' ∈ s := by
  unfold matchFeetAt at h
  split at h
  · cases h
  · split at h
    case _ r3 heq =>
      have hsub : List.Sublist ('f' :: 't' :: r3) s :=
        heq ▸ (((s.dropWhile Char.isDigit).dropWhile_sublist isSpace).trans
          (s.dropWhile_sublist Char.isDigit))
      split at h
      case _ tail heq2 =>
        have h5 : 'i' ∈ ((r3.dropWhile isSpace).dropWhile Char.isDigit).dropWhile isSpace := by
          rw [heq2]; exact List.mem_cons_self _ _
        have h3 : 'i' ∈ r3 :=
          ((((r3.dropWhile isSpace).dropWhile Char.isDigit).dropWhile_sublist isSpace).trans
            (((r3.dropWhile isSpace).dropWhile_sublist Char.isDigit).trans
              (r3.dropWhile_sublist isSpace))).mem h5
        exact hsub.mem (List.mem_cons_of_mem _ (List.mem_cons_of_mem _ h3))
      · cases h
    · cases h

theorem mem_i_of_matchFeet (s : List Char) (fv : List Char × Option (List Char))
    (h : matchFeet s = some fv) : 'i' ∈ s := by
  induction s with
  | nil => cases h
  | cons c t ih =>
    unfold matchFeet at h
    split at h
    case _ fv' heq => exact mem_i_of_matchFeetAt _ _ heq
    case _ heq => exact List.mem_cons_of_mem _ (ih h)

theorem matchFeet_eq_none (s : List Char) (h : 'i' ∉ s) : matchFeet s = none := by
  cases hm : matchFeet s with
  | none => rfl
  | some fv => exact absurd (mem_i_of_matchFeet s fv hm) h

/-! Positive search lemmas: a per-position match at the head, or at any
suffix, makes the leftmost search succeed. -/

theorem matchMetres_of_matchAt (s g : List Char) (hs : s ≠ [])
    (h : matchMetresAt s = some g) : matchMetres s = some g := by
  cases s with
  | nil => exact absurd rfl hs
  | cons c t => simp [matchMetres, h]

theorem matchFeet_of_matchAt (s : List Char) (fv : List Char × Option (List Char))
    (hs : s ≠ []) (h : matchFeetAt s = some fv) : matchFeet s = some fv := by
  cases s with
  | nil => exact absurd rfl hs
  | cons c t => simp [matchFeet, h]

theorem matchMetres_isSome_of_suffix (s t : List Char) (hst : t <:+ s)
    (h : matchMetresAt t ≠ none) : matchMetres s ≠ none := by
  induction s with
  | nil =>
    rw [List.suffix_nil.mp hst] at h
    exact absurd rfl h
  | cons c s' ih =>
    rcases List.suffix_cons_iff.mp hst with h1 | h1
    · subst h1
      cases hm : matchMetresAt (c :: s') with
      | none => exact absurd hm h
      | some g => simp [matchMetres, hm]
    · cases hm : matchMetresAt (c :: s') with
      | none => simpa [matchMetres, hm] using ih h1
      | some g => simp [matchMetres, hm]

/-- Every METRES_REGEX search result came from a per-position match. -/
theorem matchMetres_from_matchAt (s g : List Char) (h : matchMetres s = some g) :
    ∃ t, matchMetresAt t = some g := by
  induction s with
  | nil => cases h
  | cons c t ih =>
    unfold matchMetres at h
    split at h
    case _ g' heq => exact ⟨c :: t, by rw [heq, h]⟩
    case _ heq => exact ih h

/-! Behaviour of the matchers and of `parseFloat` on symbolic inputs of
the shapes the claims quantify over. -/

theorem isSpace_eq_false_of_digit (c : Char) (h : c.isDigit = true) : isSpace c = false := by
  cases hs : isSpace c with
  | false => rfl
  | true => rw [not_digit_of_isSpace c hs] at h; cases h

theorem parseFloatParts_digits (f : List Char) (hf : f ≠ [])
    (h : ∀ c ∈ f, c.isDigit = true) : parseFloatParts f = some (f, []) := by
  have hsp : f.dropWhile isSpace = f := by
    apply dropWhile_eq_self_of_head
    intro c hc
    cases f with
    | nil => cases hc
    | cons a t =>
      rw [List.head?_cons] at hc
      injection hc with hh
      subst hh
      exact isSpace_eq_false_of_digit a (h a (List.mem_cons_self a t))
  obtain ⟨ht, hd⟩ := takeWhile_all Char.isDigit f h
  unfold parseFloatParts
  rw [hsp, ht, hd]
  simp [List.isEmpty_iff, hf]

theorem parseFloat_digits (f : List Char) (hf : f ≠ [])
    (h : ∀ c ∈ f, c.isDigit = true) : parseFloat f = some ((natOfDigits f : ℚ)) := by
  simp [parseFloat, parseFloatParts_digits f hf h]

theorem parseFloatParts_dec (d1 d2 : List Char) (h1 : d1 ≠ [])
    (hd1 : ∀ c ∈ d1, c.isDigit = true) (hd2 : ∀ c ∈ d2, c.isDigit = true) :
    parseFloatParts (d1 ++ '.' :: d2) = some (d1, d2) := by
  have hsp : (d1 ++ '.' :: d2).dropWhile isSpace = d1 ++ '.' :: d2 := by
    apply dropWhile_eq_self_of_head
    intro c hc
    cases d1 with
    | nil => exact absurd rfl h1
    | cons a t =>
      rw [List.cons_append, List.head?_cons] at hc
      injection hc with hh
      subst hh
      exact isSpace_eq_false_of_digit a (hd1 a (List.mem_cons_self a t))
  obtain ⟨ht, hd⟩ := takeWhile_append_eq Char.isDigit d1 ('.' :: d2) hd1
    (by intro c hc; rw [List.head?_cons] at hc; injection hc with hh; subst hh; decide)
  have ht2 := (takeWhile_all Char.isDigit d2 hd2).1
  unfold parseFloatParts
  rw [hsp, ht, hd]
  simp [List.isEmpty_iff, h1, ht2]

theorem replaceFirst_not_mem (a b : Char) (l : List Char) (h : a ∉ l) :
    replaceFirst a b l = l := by
  induction l with
  | nil => rfl
  | cons c t ih =>
    have hca : c ≠ a := fun e => h (e ▸ List.mem_cons_self c t)
    simp [replaceFirst, hca, ih fun hm => h (List.mem_cons_of_mem _ hm)]

theorem replaceFirst_append (a b : Char) (l1 l2 : List Char) (h : a ∉ l1) :
    replaceFirst a b (l1 ++ a :: l2) = l1 ++ b :: l2 := by
  induction l1 with
  | nil => simp [replaceFirst]
  | cons c t ih =>
    have hca : c ≠ a := fun e => h (e ▸ List.mem_cons_self c t)
    simp [replaceFirst, hca, ih fun hm => h (List.mem_cons_of_mem _ hm)]

theorem matchMetresAt_digits_sep (d1 d2 w b : List Char) (sep : Char) (h1 : d1 ≠ [])
    (hd1 : ∀ c ∈ d1, c.isDigit = true) (hd2 : ∀ c ∈ d2, c.isDigit = true)
    (hsep : sep = '.' ∨ sep = ',') (hw : ∀ c ∈ w, isSpace c = true) :
    matchMetresAt (d1 ++ sep :: (d2 ++ (w ++ 'm' :: b))) = some (d1 ++ sep :: d2) := by
  have hsepd : sep.isDigit = false := by rcases hsep with h | h <;> subst h <;> decide
  obtain ⟨ht, hd⟩ := takeWhile_append_eq Char.isDigit d1 (sep :: (d2 ++ (w ++ 'm' :: b))) hd1
    (by intro c hc; rw [List.head?_cons] at hc; injection hc with hh; subst hh; exact hsepd)
  have hhead2 : ∀ c, (w ++ 'm' :: b).head? = some c → c.isDigit = false := by
    intro c hc
    cases w with
    | nil =>
      rw [List.nil_append, List.head?_cons] at hc
      injection hc with hh; subst hh; decide
    | cons x t =>
      rw [List.cons_append, List.head?_cons] at hc
      injection hc with hh; subst hh
      exact not_digit_of_isSpace x (hw x (List.mem_cons_self x t))
  obtain ⟨ht2, hd2'⟩ := takeWhile_append_eq Char.isDigit d2 (w ++ 'm' :: b) hd2 hhead2
  have hsp := matchSpacesThenM_spaces w b hw
  unfold matchMetresAt
  rw [ht, hd]
  rcases hsep with hse | hse <;> subst hse <;>
    simp [List.isEmpty_iff, h1, hd2', ht2, hsp]

theorem matchMetresAt_digits_m (d w b : List Char) (hd : d ≠ [])
    (h1 : ∀ c ∈ d, c.isDigit = true) (hw : ∀ c ∈ w, isSpace c = true) :
    matchMetresAt (d ++ (w ++ 'm' :: b)) = some d := by
  have hhead : ∀ c, (w ++ 'm' :: b).head? = some c → c.isDigit = false := by
    intro c hc
    cases w with
    | nil =>
      rw [List.nil_append, List.head?_cons] at hc
      injection hc with hh; subst hh; decide
    | cons x t =>
      rw [List.cons_append, List.head?_cons] at hc
      injection hc with hh; subst hh
      exact not_digit_of_isSpace x (hw x (List.mem_cons_self x t))
  obtain ⟨ht, hdp⟩ := takeWhile_append_eq Char.isDigit d (w ++ 'm' :: b) h1 hhead
  unfold matchMetresAt
  rw [ht, hdp]
  cases w with
  | nil =>
    cases d with
    | nil => exact absurd rfl hd
    | cons a t => rfl
  | cons x t =>
    have hx := hw x (List.mem_cons_self x t)
    have hx1 : x ≠ '.' := ne_of_isSpace x '.' hx (by decide)
    have hx2 : x ≠ ',' := ne_of_isSpace x ',' hx (by decide)
    have hsp : matchSpacesThenM (x :: (t ++ 'm' :: b)) = true := by
      simpa using matchSpacesThenM_spaces (x :: t) b hw
    simp [List.isEmpty_iff, hd, hx1, hx2, hsp]

theorem matchFeetAt_ft_in (f : List Char) (hf : f ≠ [])
    (h : ∀ c ∈ f, c.isDigit = true) :
    matchFeetAt (f ++ [' ', 'f', 't', ' ', 'i', 'n']) = some (f, none) := by
  obtain ⟨ht, hd⟩ := takeWhile_append_eq Char.isDigit f [' ', 'f', 't', ' ', 'i', 'n'] h
    (by intro c hc; rw [List.head?_cons] at hc; injection hc with hh; subst hh; decide)
  unfold matchFeetAt
  rw [ht, hd]
  cases f with
  | nil => exact absurd rfl hf
  | cons a t => rfl

/-- Shape of a METRES_REGEX group-1 capture: a non-empty digit run,
optionally followed by one separator and another digit run. -/
theorem matchMetresAt_capture (s g : List Char) (h : matchMetresAt s = some g) :
    ∃ ds ds2 : List Char, ds ≠ [] ∧ (∀ c ∈ ds, c.isDigit = true) ∧
      (∀ c ∈ ds2, c.isDigit = true) ∧
      (g = ds ∨ ∃ sep, (sep = '.' ∨ sep = ',') ∧ g = ds ++ sep :: ds2) := by
  unfold matchMetresAt at h
  split at h
  case isTrue => cases h
  case isFalse hne =>
    have hds : (s.takeWhile Char.isDigit) ≠ [] := fun e => by rw [e] at hne; exact hne rfl
    split at h
    case _ c r2 heq =>
      split at h
      case isTrue hsep =>
        split at h
        case isTrue hsp =>
          injection h with hg
          refine ⟨s.takeWhile Char.isDigit, r2.takeWhile Char.isDigit, hds,
            (fun x hx => List.mem_takeWhile_imp hx), (fun x hx => List.mem_takeWhile_imp hx),
            Or.inr ⟨c, ?_, hg.symm⟩⟩
          simpa using hsep
        case isFalse => cases h
      case isFalse hsep =>
        split at h
        case isTrue hsp =>
          injection h with hg
          exact ⟨s.takeWhile Char.isDigit, [], hds,
            (fun x hx => List.mem_takeWhile_imp hx), (fun x hx => by cases hx), Or.inl hg.symm⟩
        case isFalse => cases h
    case _ => cases h

/-- A metric match always converts: the capture, with `,` normalized to
`.`, never fails `parseFloat`, so the metric branch always emits a
value (the `isNaN` guard at line 98 is never taken). -/
theorem parseCell_isSome_of_metres (s g : List Char) (h : matchMetres s = some g) :
    ∃ q, parseCell s = some q := by
  obtain ⟨t, ht⟩ := matchMetres_from_matchAt s g h
  obtain ⟨ds, ds2, hne, hds, hds2, hcase⟩ := matchMetresAt_capture t g ht
  rw [parseCell_metres s g h]
  have hndig : (',' : Char).isDigit = false := by decide
  have hnmem : ',' ∉ ds := fun hm => by rw [hds ',' hm] at hndig; cases hndig
  rcases hcase with hg | ⟨sep, hsep, hg⟩
  · rw [hg]
    rw [replaceFirst_not_mem ',' '.' ds hnmem]
    exact ⟨_, parseFloat_digits ds hne hds⟩
  · rw [hg]
    have hnmem2 : ',' ∉ ds2 := fun hm => by rw [hds2 ',' hm] at hndig; cases hndig
    have hdot : parseFloat (ds ++ '.' :: ds2) =
        some ((natOfDigits ds : ℚ) + (natOfDigits ds2 : ℚ) / 10 ^ ds2.length) ∨
        parseFloat (ds ++ '.' :: ds2) = some ((natOfDigits ds : ℚ)) := by
      cases ds2 with
      | nil => exact Or.inr (parseFloat_int _ _ (parseFloatParts_dec ds [] hne hds hds2))
      | cons a t2 =>
        exact Or.inl (parseFloat_frac _ ds t2 a (parseFloatParts_dec ds (a :: t2) hne hds hds2))
    rcases hsep with h1 | h1 <;> subst h1
    · have hno : ',' ∉ ds ++ '.' :: ds2 := by
        intro hm
        rcases List.mem_append.mp hm with hm | hm
        · exact hnmem hm
        · rcases List.mem_cons.mp hm with hm | hm
          · exact absurd hm (by decide)
          · exact hnmem2 hm
      rw [replaceFirst_not_mem ',' '.' _ hno]
      rcases hdot with h2 | h2 <;> exact ⟨_, h2⟩
    · rw [replaceFirst_append ',' '.' ds ds2 hnmem]
      rcases hdot with h2 | h2 <;> exact ⟨_, h2⟩

/-! Non-negativity of everything the pipeline emits, and the shape of
the orchestrator's output. -/

theorem parseFloat_nonneg (s : List Char) (q : ℚ) (h : parseFloat s = some q) :
    0 ≤ q := by
  unfold parseFloat at h
  split at h
  case _ ds heq => injection h with h2; subst h2; positivity
  case _ ds fs heq => injection h with h2; subst h2; positivity
  case _ => cases h

theorem getD_parseFloat_nonneg (s : List Char) : 0 ≤ (parseFloat s).getD 0 := by
  cases h : parseFloat s with
  | none => simp
  | some q => simpa using parseFloat_nonneg s q h

theorem parseCell_nonneg (s : List Char) (q : ℚ) (h : parseCell s = some q) :
    0 ≤ q := by
  cases hm : matchMetres s with
  | some g =>
    rw [parseCell_metres s g hm] at h
    exact parseFloat_nonneg _ _ h
  | none =>
    cases hf : matchFeet s with
    | none => rw [parseCell_noMatch s hm hf] at h; cases h
    | some fv =>
      obtain ⟨g1, g2⟩ := fv
      have c1 : (0 : ℚ) ≤ 3048 / 10000 := by norm_num
      have c2 : (0 : ℚ) ≤ 254 / 10000 := by norm_num
      cases g2 with
      | none =>
        rw [parseCell_feet_none s g1 hm hf] at h
        injection h with h2
        subst h2
        have h1 := getD_parseFloat_nonneg g1
        have := mul_nonneg h1 c1
        linarith
      | some d =>
        rw [parseCell_feet_some s g1 d hm hf] at h
        injection h with h2
        subst h2
        have h1 := mul_nonneg (getD_parseFloat_nonneg g1) c1
        have h3 := mul_nonneg (getD_parseFloat_nonneg d) c2
        linarith

theorem getColumns_mem_shape (tables : List Table) (col : ColumnData)
    (h : col ∈ getColumns tables) :
    col.values ≠ [] ∧ ∃ t ∈ tables, col.header = "Height" ∧
      col.values = (t.drop 1).filterMap rowValue := by
  unfold getColumns at h
  rw [List.mem_flatten] at h
  obtain ⟨l, hl, hcol⟩ := h
  rw [List.mem_map] at hl
  obtain ⟨t, htab, rfl⟩ := hl
  unfold extractColumnData at hcol
  split at hcol
  case isTrue hlen =>
    rw [List.mem_singleton] at hcol
    subst hcol
    exact ⟨List.length_pos.mp hlen, t, htab, rfl, rfl⟩
  case isFalse => cases hcol

/-! The claims. -/

/-- C1: for a single table whose rows are ["Header"], ["1.85 m"],
["n/a"], ["6 ft 1 in"], the extraction pipeline (row scan starting at
row 1, unit parse of each first cell, column build) returns exactly one
column with header "Height" and values [1.85, 1.8542], where
1.8542 = 6*0.3048 + 1*0.0254 (here exactly, hence within 1e-3). -/
theorem c1_end_to_end_example :
    extractColumnData [["Header".toList], ["1.85 m".toList], ["n/a".toList],
        ["6 ft 1 in".toList]] =
      [{ header := "Height", values := [185 / 100, 18542 / 10000] }] ∧
    (18542 / 10000 : ℚ) = 6 * (3048 / 10000) + 1 * (254 / 10000) := by
  constructor
  · have h1 : parseCell (trim ['1', '.', '8', '5', ' ', 'm']) = some (185 / 100 : ℚ) := by
      rw [show trim ['1', '.', '8', '5', ' ', 'm'] = ['1', '.', '8', '5', ' ', 'm']
        from by decide]
      rw [parseCell_metres _ ['1', '.', '8', '5'] (by decide),
        parseFloat_frac _ ['1'] ['5'] '8' (by decide)]
      rw [show natOfDigits ['1'] = 1 from by decide,
        show natOfDigits ['8', '5'] = 85 from by decide]
      norm_num
    have h2 : parseCell (trim ['n', '/', 'a']) = none := by decide
    have h3 : parseCell (trim ['6', ' ', 'f', 't', ' ', '1', ' ', 'i', 'n']) =
        some (18542 / 10000 : ℚ) := by
      rw [show trim ['6', ' ', 'f', 't', ' ', '1', ' ', 'i', 'n'] =
        ['6', ' ', 'f', 't', ' ', '1', ' ', 'i', 'n'] from by decide]
      rw [parseCell_feet_some _ ['6'] ['1'] (by decide) (by decide)]
      rw [show parseFloat ['6'] = some ((6 : ℕ) : ℚ) from by decide,
        show parseFloat ['1'] = some ((1 : ℕ) : ℚ) from by decide]
      norm_num
    simp [extractColumnData, scanValues, rowValue, List.filterMap_cons, h1, h2, h3]
  · norm_num

/-- C2 counterexample: the FEET_REGEX of the source demands a literal
"in", so the cell "5 ft" parses to nothing, and the two-table pipeline
of the claim returns no columns instead of one column with value
1.524. -/
theorem c2_counterexample_feet_without_in :
    parseCell ("5 ft".toList) = none ∧
    getColumns [[["Header".toList], ["n/a".toList]],
      [["Header".toList], ["5 ft".toList]]] = [] := ⟨by decide, by decide⟩

/-- C2 amended: a feet-only cell needs the literal inches marker: for
every digit string f, "f ft in" (inches digits absent) parses to
f*0.3048; "5 ft" without the marker does not match, so the claim's
two-table pipeline returns no columns. -/
theorem c2_amended_feet_need_in_marker :
    (∀ f : List Char, f ≠ [] → (∀ c ∈ f, c.isDigit = true) →
      parseCell (f ++ " ft in".toList) =
        some ((natOfDigits f : ℚ) * (3048 / 10000))) ∧
    getColumns [[["Header".toList], ["n/a".toList]],
      [["Header".toList], ["5 ft".toList]]] = [] := by
  refine ⟨?_, by decide⟩
  intro f hf hd
  have hm' : 'm' ∉ f ++ " ft in".toList := by
    intro hm
    rcases List.mem_append.mp hm with hm | hm
    · exact absurd (hd 'm' hm) (by decide)
    · exact absurd hm (by decide)
  have hat : matchFeetAt (f ++ [' ', 'f', 't', ' ', 'i', 'n']) = some (f, none) :=
    matchFeetAt_ft_in f hf hd
  have hfeet : matchFeet (f ++ " ft in".toList) = some (f, none) := by
    apply matchFeet_of_matchAt
    · cases f with
      | nil => exact absurd rfl hf
      | cons a t => simp
    · exact hat
  rw [parseCell_feet_none _ f (matchMetres_eq_none _ hm') hfeet,
    parseFloat_digits f hf hd]
  simp only [Option.getD_some]
  congr 1
  ring

/-- C2 amended, witnessed at f = "5": "5 ft in" parses to
5 * 0.3048 = 1.524. -/
theorem c2_amended_feet_need_in_marker_witness :
    parseCell (['5'] ++ " ft in".toList) =
      some ((natOfDigits ['5'] : ℚ) * (3048 / 10000)) ∧
    (natOfDigits ['5'] : ℚ) * (3048 / 10000) = 1524 / 1000 :=
  ⟨c2_amended_feet_need_in_marker.1 ['5'] (by decide) (by decide),
   by rw [show natOfDigits ['5'] = 5 from by decide]; norm_num⟩

/-- C3: the imperial pattern requires a literal "in" even when the
inches digits are absent: for every digit string f, "f ft" does not
match FEET_REGEX, and, containing no 'm', yields no match overall. -/
theorem c3_feet_requires_in_marker :
    ∀ f : List Char, (∀ c ∈ f, c.isDigit = true) →
      matchFeet (f ++ " ft".toList) = none ∧ parseCell (f ++ " ft".toList) = none := by
  intro f hf
  have hi : 'i' ∉ f ++ " ft".toList := by
    intro hm
    rcases List.mem_append.mp hm with hm | hm
    · exact absurd (hf 'i' hm) (by decide)
    · exact absurd hm (by decide)
  have hm' : 'm' ∉ f ++ " ft".toList := by
    intro hm
    rcases List.mem_append.mp hm with hm | hm
    · exact absurd (hf 'm' hm) (by decide)
    · exact absurd hm (by decide)
  exact ⟨matchFeet_eq_none _ hi,
    parseCell_noMatch _ (matchMetres_eq_none _ hm') (matchFeet_eq_none _ hi)⟩

/-- C3 witnessed at f = "6": the cell "6 ft" matches nothing. -/
theorem c3_feet_requires_in_marker_witness :
    matchFeet (['6'] ++ " ft".toList) = none ∧
    parseCell (['6'] ++ " ft".toList) = none :=
  c3_feet_requires_in_marker ['6'] (by decide)

set_option maxRecDepth 8000 in
set_option exponentiation.threshold 1100 in
/-- C4: code bug — the claimed finiteness invariant fails on the code.
The metric capture of 310 nines converts to 10^310 - 1, at or above the
binary64 overflow threshold, so the real program's `parseFloat` yields
`Infinity`; `isNaN(Infinity)` is false, so line 99 pushes it into the
Height column instead of treating the pattern as not matched (and
without falling through to the imperial attempt).  Proved here: the
cell's value is emitted and reaches the threshold, and the pipeline
includes it in the returned column rather than skipping the row. -/
theorem c4_overflow_value_pushed :
    parseCell (List.replicate 310 '9' ++ [' ', 'm']) =
      some ((natOfDigits (List.replicate 310 '9') : ℚ)) ∧
    DOUBLE_OVERFLOW_THRESHOLD ≤ ((natOfDigits (List.replicate 310 '9') : ℚ)) ∧
    extractColumnData
        [["Header".toList], [List.replicate 310 '9' ++ [' ', 'm']]] =
      [{ header := "Height",
         values := [((natOfDigits (List.replicate 310 '9') : ℚ))] }] := by
  have hne : List.replicate 310 '9' ≠ ([] : List Char) := by
    intro e
    have h := congrArg List.length e
    simp at h
  have hdig : ∀ c ∈ List.replicate 310 '9', c.isDigit = true := by
    intro c hc
    rw [List.eq_of_mem_replicate hc]
    decide
  have hat : matchMetresAt (List.replicate 310 '9' ++ [' ', 'm']) =
      some (List.replicate 310 '9') :=
    matchMetresAt_digits_m (List.replicate 310 '9') [' '] [] hne hdig (by decide)
  have hsne : List.replicate 310 '9' ++ ([' ', 'm'] : List Char) ≠ [] := by
    intro e
    have h := congrArg List.length e
    simp at h
  have hmm : matchMetres (List.replicate 310 '9' ++ [' ', 'm']) =
      some (List.replicate 310 '9') :=
    matchMetres_of_matchAt _ _ hsne hat
  have hnmem : ',' ∉ List.replicate 310 '9' := by
    intro hm
    exact absurd (List.eq_of_mem_replicate hm) (by decide)
  have hparse : parseCell (List.replicate 310 '9' ++ [' ', 'm']) =
      some ((natOfDigits (List.replicate 310 '9') : ℚ)) := by
    rw [parseCell_metres _ _ hmm, replaceFirst_not_mem ',' '.' _ hnmem,
      parseFloat_digits _ hne hdig]
  have h9 : natOfDigits (List.replicate 310 '9') = 10 ^ 310 - 1 := by decide
  refine ⟨hparse, ?_, ?_⟩
  · rw [h9]
    norm_num [DOUBLE_OVERFLOW_THRESHOLD]
  · have htrim : trim (List.replicate 310 '9' ++ [' ', 'm']) =
        List.replicate 310 '9' ++ [' ', 'm'] := by decide
    have hrow : rowValue [List.replicate 310 '9' ++ [' ', 'm']] =
        some ((natOfDigits (List.replicate 310 '9') : ℚ)) := by
      show parseCell (trim (List.replicate 310 '9' ++ [' ', 'm'])) = _
      rw [htrim]
      exact hparse
    have hscan : scanValues
        [["Header".toList], [List.replicate 310 '9' ++ [' ', 'm']]] =
        [((natOfDigits (List.replicate 310 '9') : ℚ))] := by
      show List.filterMap rowValue [[List.replicate 310 '9' ++ [' ', 'm']]] = _
      rw [List.filterMap_cons_some hrow, List.filterMap_nil]
    unfold extractColumnData
    rw [hscan]
    simp

/-- C5: when tables are present but every table extracts to nothing,
`generateChart` fails with the "No numeric columns found in the tables"
error (whose message carries the user-facing words "No numeric columns
found"), never succeeding on an empty column sequence; in particular a
single table whose only data row is ["—"] produces this failure. -/
theorem c5_no_measurements_failure :
    (∀ tables : List Table, tables ≠ [] → getColumns tables = [] →
      generateChart tables =
        Except.error ("Failed to generate chart: " ++ NO_COLUMNS_MSG)) ∧
    NO_COLUMNS_MSG = "No numeric columns found" ++ " in the tables" ∧
    (∀ tables : List Table, generateChart tables = Except.ok () →
      getColumns tables ≠ []) ∧
    generateChart [[["Header".toList], ["—".toList]]] =
      Except.error ("Failed to generate chart: " ++ NO_COLUMNS_MSG) := by
  refine ⟨?_, by decide, ?_, ?_⟩
  · intro tables _ hcols
    simp [generateChart, hcols]
  · intro tables hok hcols
    simp [generateChart, hcols] at hok
  · have h : getColumns [[["Header".toList], ["—".toList]]] = [] := by decide
    unfold generateChart
    rw [h]
    rfl

/-- C5 witnessed on the ["—"] table (hypotheses of the universal parts
discharged there). -/
theorem c5_no_measurements_failure_witness :
    generateChart [[["Header".toList], ["—".toList]]] =
      Except.error ("Failed to generate chart: " ++ NO_COLUMNS_MSG) :=
  c5_no_measurements_failure.1 [[["Header".toList], ["—".toList]]]
    (by decide) (by decide)

/-- C6: no returned column is ever empty, every returned column carries
the header "Height", and its values are the in-order kept results of the
row parses of one of the input tables (source-row order). -/
theorem c6_columns_nonempty_ordered :
    ∀ (tables : List Table) (col : ColumnData), col ∈ getColumns tables →
      col.values ≠ [] ∧ ∃ t ∈ tables, col.header = "Height" ∧
        col.values = (t.drop 1).filterMap rowValue := by
  intro tables col h
  exact getColumns_mem_shape tables col h

/-- C6 witnessed on a one-table input producing the column
⟨"Height", [2]⟩. -/
theorem c6_columns_nonempty_ordered_witness :
    ({ header := "Height", values := [2] } : ColumnData).values ≠ [] ∧
    ∃ t ∈ [[["h".toList], ["2 m".toList]]],
      ({ header := "Height", values := [2] } : ColumnData).header = "Height" ∧
      ({ header := "Height", values := [2] } : ColumnData).values =
        (t.drop 1).filterMap rowValue :=
  c6_columns_nonempty_ordered [[["h".toList], ["2 m".toList]]]
    { header := "Height", values := [2] } (by decide)

/-- C7: the row scanner skips row index 0 unconditionally (the scan does
not depend on the first row), a table with fewer than 2 rows yields an
empty sequence, the scanned sequence is at most one shorter than the row
count, and rows with zero cells or an unparsable first cell contribute
nothing. -/
theorem c7_row_scan_skips_header :
    (∀ (r r' : Row) (rows : List Row), scanValues (r :: rows) = scanValues (r' :: rows)) ∧
    (∀ rows : List Row, rows.length < 2 → scanValues rows = []) ∧
    (∀ rows : List Row, (scanValues rows).length ≤ rows.length - 1) ∧
    rowValue ([] : Row) = none ∧
    (∀ (hd row : Row) (pre post : List Row), rowValue row = none →
      scanValues (hd :: (pre ++ row :: post)) = scanValues (hd :: (pre ++ post))) := by
  refine ⟨?_, ?_, ?_, rfl, ?_⟩
  · intro r r' rows
    simp [scanValues]
  · intro rows h
    cases rows with
    | nil => rfl
    | cons r t =>
      cases t with
      | nil => rfl
      | cons r' t' => simp [List.length_cons] at h; omega
  · intro rows
    calc (scanValues rows).length ≤ (rows.drop 1).length :=
          List.length_filterMap_le _ _
      _ = rows.length - 1 := by rw [List.length_drop]
  · intro hd row pre post h
    simp [scanValues, List.filterMap_append, List.filterMap_cons, h]

/-- C7 witnessed: a one-row table scans to nothing, the header row is
ignored whatever it holds, and a dash row contributes nothing. -/
theorem c7_row_scan_skips_header_witness :
    scanValues (["—".toList] :: [["2 m".toList]]) =
      scanValues (([] : Row) :: [["2 m".toList]]) ∧
    scanValues [["2 m".toList]] = [] ∧
    (scanValues [["h".toList], ["2 m".toList]]).length ≤ 2 - 1 ∧
    scanValues (["h".toList] :: ([] ++ ["—".toList] :: [["2 m".toList]])) =
      scanValues (["h".toList] :: ([] ++ [["2 m".toList]])) :=
  ⟨c7_row_scan_skips_header.1 ["—".toList] [] [["2 m".toList]],
   c7_row_scan_skips_header.2.1 [["2 m".toList]] (by decide),
   c7_row_scan_skips_header.2.2.1 [["h".toList], ["2 m".toList]],
   c7_row_scan_skips_header.2.2.2.2 ["h".toList] ["—".toList] [] [["2 m".toList]]
     (by decide)⟩

/-- C8: metric-before-imperial precedence: whenever METRES_REGEX
matches (in particular when FEET_REGEX matches too), the cell resolves
through the metric conversion of the metric capture, never through the
imperial branch; "2 m" parses to 2 meters via the metric step. -/
theorem c8_metric_precedence :
    (∀ value g : List Char, matchMetres value = some g →
      (matchFeet value).isSome = true →
      parseCell value = parseFloat (replaceFirst ',' '.' g)) ∧
    parseCell ("2 m".toList) = some 2 := by
  refine ⟨?_, by decide⟩
  intro value g hm _
  exact parseCell_metres value g hm

/-- C8 witnessed on "5 ft 6 in 2 m", which matches both patterns and
resolves via the metric capture "2". -/
theorem c8_metric_precedence_witness :
    parseCell ("5 ft 6 in 2 m".toList) = parseFloat (replaceFirst ',' '.' ['2']) ∧
    parseFloat (replaceFirst ',' '.' ['2']) = some 2 :=
  ⟨c8_metric_precedence.1 ("5 ft 6 in 2 m".toList) ['2'] (by decide) (by decide),
   by decide⟩

/-- C9: decimal-separator equivalence: for all digit strings d1, d2 the
cells "d1.d2 m" and "d1,d2 m" parse to the same canonical value, the
exact decimal d1.d2. -/
theorem c9_separator_equivalence :
    ∀ d1 d2 : List Char, d1 ≠ [] → d2 ≠ [] →
      (∀ c ∈ d1, c.isDigit = true) → (∀ c ∈ d2, c.isDigit = true) →
      parseCell (d1 ++ '.' :: (d2 ++ [' ', 'm'])) =
        parseCell (d1 ++ ',' :: (d2 ++ [' ', 'm'])) ∧
      parseCell (d1 ++ '.' :: (d2 ++ [' ', 'm'])) =
        some ((natOfDigits d1 : ℚ) + (natOfDigits d2 : ℚ) / 10 ^ d2.length) := by
  intro d1 d2 h1 h2 hd1 hd2
  have hne : d1 ++ '.' :: (d2 ++ [' ', 'm']) ≠ [] := by
    cases d1 with
    | nil => exact absurd rfl h1
    | cons a t => simp
  have hne2 : d1 ++ ',' :: (d2 ++ [' ', 'm']) ≠ [] := by
    cases d1 with
    | nil => exact absurd rfl h1
    | cons a t => simp
  have hw : ∀ c ∈ [' '], isSpace c = true := by decide
  have hs1 : matchMetres (d1 ++ '.' :: (d2 ++ [' ', 'm'])) = some (d1 ++ '.' :: d2) :=
    matchMetres_of_matchAt _ _ hne
      (matchMetresAt_digits_sep d1 d2 [' '] [] '.' h1 hd1 hd2 (Or.inl rfl) hw)
  have hs2 : matchMetres (d1 ++ ',' :: (d2 ++ [' ', 'm'])) = some (d1 ++ ',' :: d2) :=
    matchMetres_of_matchAt _ _ hne2
      (matchMetresAt_digits_sep d1 d2 [' '] [] ',' h1 hd1 hd2 (Or.inr rfl) hw)
  have hndig : (',' : Char).isDigit = false := by decide
  have hnmem : ',' ∉ d1 := fun hm => by rw [hd1 ',' hm] at hndig; cases hndig
  have hnmem2 : ',' ∉ d2 := fun hm => by rw [hd2 ',' hm] at hndig; cases hndig
  have hrep1 : replaceFirst ',' '.' (d1 ++ '.' :: d2) = d1 ++ '.' :: d2 := by
    apply replaceFirst_not_mem
    intro hm
    rcases List.mem_append.mp hm with hm | hm
    · exact hnmem hm
    · rcases List.mem_cons.mp hm with hm | hm
      · exact absurd hm (by decide)
      · exact hnmem2 hm
  have hrep2 : replaceFirst ',' '.' (d1 ++ ',' :: d2) = d1 ++ '.' :: d2 :=
    replaceFirst_append ',' '.' d1 d2 hnmem
  have hpf : parseFloat (d1 ++ '.' :: d2) =
      some ((natOfDigits d1 : ℚ) + (natOfDigits d2 : ℚ) / 10 ^ d2.length) := by
    cases d2 with
    | nil => exact absurd rfl h2
    | cons a t => exact parseFloat_frac _ d1 t a (parseFloatParts_dec d1 (a :: t) h1 hd1 hd2)
  refine ⟨?_, ?_⟩
  · rw [parseCell_metres _ _ hs1, parseCell_metres _ _ hs2, hrep1, hrep2]
  · rw [parseCell_metres _ _ hs1, hrep1, hpf]

/-- C9 witnessed at "1.85 m" versus "1,85 m". -/
theorem c9_separator_equivalence_witness :
    parseCell (['1'] ++ '.' :: (['8', '5'] ++ [' ', 'm'])) =
      parseCell (['1'] ++ ',' :: (['8', '5'] ++ [' ', 'm'])) ∧
    parseCell (['1'] ++ '.' :: (['8', '5'] ++ [' ', 'm'])) =
      some ((natOfDigits ['1'] : ℚ) + (natOfDigits ['8', '5'] : ℚ) / 10 ^ (['8', '5'] : List Char).length) :=
  c9_separator_equivalence ['1'] ['8', '5'] (by decide) (by decide) (by decide) (by decide)

/-- C10: the metric marker is any occurrence of 'm' as a raw substring:
any cell containing digits, optional whitespace and then an 'm' — also
the 'm' of an unrelated word — makes the metric branch match and emit a
value; "100 miles" parses to 100 and reaches the Height column. -/
theorem c10_metric_marker_substring :
    (∀ a d w b : List Char, d ≠ [] → (∀ c ∈ d, c.isDigit = true) →
      (∀ c ∈ w, isSpace c = true) →
      (matchMetres (a ++ (d ++ (w ++ 'm' :: b)))).isSome = true ∧
      ∃ q, parseCell (a ++ (d ++ (w ++ 'm' :: b))) = some q) ∧
    parseCell ("100 miles".toList) = some 100 ∧
    extractColumnData [["Header".toList], ["100 miles".toList]] =
      [{ header := "Height", values := [100] }] := by
  refine ⟨?_, by decide, by decide⟩
  intro a d w b hd hdig hw
  have hat : matchMetresAt (d ++ (w ++ 'm' :: b)) = some d :=
    matchMetresAt_digits_m d w b hd hdig hw
  have hnn : matchMetres (a ++ (d ++ (w ++ 'm' :: b))) ≠ none := by
    apply matchMetres_isSome_of_suffix _ _ (List.suffix_append a _)
    rw [hat]
    exact fun e => Option.noConfusion e
  cases hg : matchMetres (a ++ (d ++ (w ++ 'm' :: b))) with
  | none => exact absurd hg hnn
  | some g => exact ⟨rfl, parseCell_isSome_of_metres _ g hg⟩

/-- C10 witnessed at "x7 mrest". -/
theorem c10_metric_marker_substring_witness :
    (matchMetres (['x'] ++ (['7'] ++ ([' '] ++ 'm' :: "rest".toList)))).isSome = true ∧
    ∃ q, parseCell (['x'] ++ (['7'] ++ ([' '] ++ 'm' :: "rest".toList))) = some q :=
  c10_metric_marker_substring.1 ['x'] ['7'] [' '] ("rest".toList)
    (by decide) (by decide) (by decide)

end DetectorInspector
